import Mathlib

/-!
Shallow embedding of `public/script.js` of the Form Builder Bug Report
chat client.

The script is a single-page chat controller: module-level mutable state
(`currentImage`, `isLoading`, `messageHistory`) plus DOM side effects.  We
embed it as explicit state passing over a `ClientState` record.  DOM
effects that the specification talks about (rendered message bubbles, the
typing indicator, the welcome placeholder, the preview image, the input
field) are fields of that record; the rendered messages area is a list of
`Rendered` items in document order, with the typing indicator an ordinary
element of that list (it is appended by `showTypingIndicator` and removed
by id by `removeTypingIndicator`, exactly as in the script).

Asynchronous results are passed as explicit values: the outcome of the
`fetch('/api/chat')` call is a `FetchResult` argument threaded into
`sendMessage`, and the outcome of the `FileReader` decode is a
`FileReadResult` argument threaded into `handleImageFile`.  The counter
`requestsSent` records the network calls actually issued, so that
"no request is sent" is expressible.
-/

namespace BugReport

/-- One part of a message's `content` array: `{type:'text', text}` or
`{type:'image_url', image_url:{url}}` as built in `sendMessage`. -/
inductive ContentPart where
  | text (text : String)
  | image_url (url : String)
deriving DecidableEq

/-- One entry of `messageHistory`: `{ role, content }`. -/
structure Message where
  role : String
  content : List ContentPart
deriving DecidableEq

/-- The module-level `currentImage` value: `{ base64, mimeType }`. -/
structure PendingImage where
  base64 : String
  mimeType : String
deriving DecidableEq

/-- One rendered element of the messages area, in document order:
a user message (`createMessageElement('user', text, imageUrl)`), an
assistant message, an error bubble (`showErrorMessage`), or the typing
indicator. -/
inductive Rendered where
  | userMsg (text : String) (imageUrl : Option String)
  | assistantMsg (text : String)
  | errorMsg (text : String)
  | typing
deriving DecidableEq

/-- The client's mutable state: the three module-level variables of the
script plus the DOM state the specification mentions. -/
structure ClientState where
  currentImage : Option PendingImage
  isLoading : Bool
  messageHistory : List Message
  messagesArea : List Rendered
  welcomePresent : Bool
  inputValue : String
  previewSrc : String
  previewVisible : Bool
  fileInputValue : String
  sendBtnDisabled : Bool
  dropZoneVisible : Bool
  requestsSent : Nat
deriving DecidableEq

/-- The state on page load: empty history, no image, welcome shown. -/
def initialState : ClientState :=
  { currentImage := none
    isLoading := false
    messageHistory := []
    messagesArea := []
    welcomePresent := true
    inputValue := ""
    previewSrc := ""
    previewVisible := false
    fileInputValue := ""
    sendBtnDisabled := false
    dropZoneVisible := false
    requestsSent := 0 }

/-- The relevant attributes of a DOM `File`: its MIME `type` string and
its `size` in bytes. -/
structure JsFile where
  type : String
  size : Nat
deriving DecidableEq

/-- Outcome of the asynchronous `FileReader.readAsDataURL` decode:
`onload` with the base64 data URI, or `onerror`. -/
inductive FileReadResult where
  | ok (base64Data : String)
  | error
deriving DecidableEq

/-- Whether the character list `pre` is a prefix of `l` (Boolean,
structurally recursive so that it evaluates by kernel reduction). -/
def listPrefixOf : List Char → List Char → Bool
  | [], _ => true
  | _ :: _, [] => false
  | a :: as, b :: bs => a == b && listPrefixOf as bs

/-- JavaScript `s.startsWith(pre)`, embedded on the character lists. -/
def jsStartsWith (s pre : String) : Bool :=
  listPrefixOf pre.data s.data

/-- A character JavaScript `String.prototype.trim` strips: tab, line
feed, vertical tab, form feed, carriage return, the BOM, the line and
paragraph separators, and every Space_Separator (Zs) code point: space,
no-break space, ogham space mark U+1680, the en-quad..hair-space range
U+2000-U+200A, the narrow no-break space U+202F, the medium mathematical
space U+205F and the ideographic space U+3000. -/
def isJsWhitespace (c : Char) : Bool :=
  c = ' ' ∨ c = '\t' ∨ c = '\n' ∨ c = '\r' ∨ c = Char.ofNat 0x0B ∨
    c = Char.ofNat 0x0C ∨ c = Char.ofNat 0xA0 ∨ c = Char.ofNat 0x1680 ∨
    (0x2000 ≤ c.toNat ∧ c.toNat ≤ 0x200A) ∨ c = Char.ofNat 0x202F ∨
    c = Char.ofNat 0x205F ∨ c = Char.ofNat 0x3000 ∨ c = Char.ofNat 0x2028 ∨
    c = Char.ofNat 0x2029 ∨ c = Char.ofNat 0xFEFF

/-- Drop the leading JavaScript whitespace of a character list. -/
def dropLeadingWs : List Char → List Char
  | [] => []
  | c :: rest => if isJsWhitespace c then dropLeadingWs rest else c :: rest

/-- JavaScript `s.trim()`: strip whitespace from both ends. -/
def jsTrim (s : String) : String :=
  String.mk ((dropLeadingWs ((dropLeadingWs s.data).reverse)).reverse)

/-- Embedding of `showErrorMessage(errorText)`: appends an error bubble to the
messages area. -/
def showErrorMessage (errorText : String) (s : ClientState) : ClientState :=
  { s with messagesArea := s.messagesArea ++ [Rendered.errorMsg errorText] }

/-- Embedding of `showImagePreview(base64Data)`: sets the preview image and makes the
preview container visible. -/
def showImagePreview (base64Data : String) (s : ClientState) : ClientState :=
  { s with previewSrc := base64Data, previewVisible := true }

/-- Embedding of `removeImage()`: clears `currentImage`, the preview, and the file
input. -/
def removeImage (s : ClientState) : ClientState :=
  { s with currentImage := none
           previewSrc := ""
           fileInputValue := ""
           previewVisible := false }

/-- Embedding of `const maxSize = 10 * 1024 * 1024` in `handleImageFile`. -/
def maxSize : Nat := 10 * 1024 * 1024

/-- Embedding of `handleImageFile(file)`: rejects non-`image/` MIME types, then files
over `maxSize` bytes, each with an error bubble; otherwise reads the file
asynchronously and, on load, sets `currentImage` and shows the preview;
on reader error, shows an error bubble. -/
def handleImageFile (file : JsFile) (readResult : FileReadResult)
    (s : ClientState) : ClientState :=
  if ¬ jsStartsWith file.type "image/" then
    showErrorMessage "Please select a valid image file." s
  else if file.size > maxSize then
    showErrorMessage "Image size must be less than 10MB." s
  else
    match readResult with
    | FileReadResult.ok base64Data =>
        showImagePreview base64Data
          { s with currentImage := some ({ base64 := base64Data, mimeType := file.type }) }
    | FileReadResult.error =>
        showErrorMessage "Failed to read image file." s

/-- Embedding of `hideDropZone()`. -/
def hideDropZone (s : ClientState) : ClientState :=
  { s with dropZoneVisible := false }

/-- Embedding of `handleDrop(dataTransfer)`: hides the drop zone, then, if there is at
least one dropped file and the first one has an `image/` MIME type,
delegates to `handleImageFile`; any other dropped file is ignored. -/
def handleDrop (files : List JsFile) (readResult : FileReadResult)
    (s : ClientState) : ClientState :=
  let s := hideDropZone s
  match files with
  | [] => s
  | file :: _ =>
      if jsStartsWith file.type "image/" then handleImageFile file readResult s
      else s

/-- Embedding of `escapeHtml(text)` works by `div.textContent = text; div.innerHTML`:
the browser serializes the text node, escaping the ampersand, no-break
space, less-than and greater-than characters.  Per-character form. -/
def escapeChar (c : Char) : List Char :=
  if c = '&' then "&amp;".data
  else if c = Char.ofNat 0xA0 then "&nbsp;".data
  else if c = '<' then "&lt;".data
  else if c = '>' then "&gt;".data
  else [c]

/-- The character list of `escapeHtml`'s result. -/
def escapeList : List Char → List Char
  | [] => []
  | c :: rest => escapeChar c ++ escapeList rest

/-- Embedding of `escapeHtml(text)`. -/
def escapeHtml (text : String) : String :=
  String.mk (escapeList text.data)

/-- A character the `.` of a JavaScript regex does not match: the line
terminators LF, CR, LINE SEPARATOR, PARAGRAPH SEPARATOR. -/
def isLineTerminator (c : Char) : Bool :=
  c = '\n' ∨ c = '\r' ∨ c = Char.ofNat 0x2028 ∨ c = Char.ofNat 0x2029

/-- The search the regex `/\*\*(.*?)\*\*/` performs after its opening
`\*\*` matched: scan for the nearest closing `**` (non-greedy `(.*?)`),
accumulating the content; fail on a line terminator (`.` does not match
those) or at end of input.  Returns the captured content and the
characters after the closing `**`. -/
def findClose : List Char → List Char → Option (List Char × List Char)
  | [], _ => none
  | [_], _ => none
  | c1 :: c2 :: rest, acc =>
      if c1 = '*' ∧ c2 = '*' then some (acc.reverse, rest)
      else if isLineTerminator c1 then none
      else findClose (c2 :: rest) (c1 :: acc)

/-- The replacement text `<strong>` of `'<strong>$1</strong>'`. -/
def strongOpen : List Char := "<strong>".data

/-- The replacement text `</strong>` of `'<strong>$1</strong>'`. -/
def strongClose : List Char := "</strong>".data

/-- The remainder length `rest2.length` is bounded by the scanned list's length. -/
theorem findClose_rest_length (cs : List Char) :
    ∀ acc content rest2, findClose cs acc = some (content, rest2) →
      rest2.length ≤ cs.length := by
  induction cs with
  | nil => intro acc content rest2 h; simp [findClose] at h
  | cons c1 tl ih =>
      intro acc content rest2 h
      cases tl with
      | nil => simp [findClose] at h
      | cons c2 rest =>
          rw [findClose] at h
          by_cases h12 : c1 = '*' ∧ c2 = '*'
          · simp [h12] at h
            simp [h.2.symm, List.length_cons]
            omega
          · simp [h12] at h
            by_cases hlt : isLineTerminator c1
            · simp [hlt] at h
            · simp [hlt] at h
              have := ih (c1 :: acc) content rest2 h
              simp [List.length_cons] at this ⊢
              omega

/-- Embedding of `formatted.replace(/\*\*(.*?)\*\*/g, '<strong>$1</strong>')`:
left-to-right global replacement of the non-greedy bold spans. -/
def boldReplace : List Char → List Char
  | [] => []
  | [c] => [c]
  | c1 :: c2 :: rest =>
      if c1 = '*' ∧ c2 = '*' then
        match h : findClose rest [] with
        | some (content, rest2) =>
            strongOpen ++ content ++ strongClose ++ boldReplace rest2
        | none => c1 :: c2 :: boldReplace rest
      else c1 :: boldReplace (c2 :: rest)
termination_by cs => cs.length
decreasing_by
  · have := findClose_rest_length rest [] content rest2 h
    simp [List.length_cons]
    omega
  · simp [List.length_cons]
    try omega
  · simp [List.length_cons]
    try omega

/-- Embedding of `formatted.replace(/\n/g, '<br>')`. -/
def brReplace : List Char → List Char
  | [] => []
  | c :: rest =>
      if c = '\n' then "<br>".data ++ brReplace rest
      else c :: brReplace rest

/-- Embedding of `formatMessageText(text)`: escape the HTML first, then rewrite the
bold spans, then the newlines. -/
def formatMessageText (text : String) : String :=
  let formatted := escapeHtml text
  let formatted := String.mk (boldReplace formatted.data)
  let formatted := String.mk (brReplace formatted.data)
  formatted

/-- Embedding of `data.choices?.[0]?.message?.content`: the `message` object of a
choice of the parsed proxy response, with its optional `content` string. -/
structure ChoiceMessage where
  content : Option String
deriving DecidableEq

/-- One element of the `choices` array of the parsed proxy response. -/
structure Choice where
  message : Option ChoiceMessage
deriving DecidableEq

/-- The parsed JSON body of a 2xx proxy response, as far as `sendMessage`
reads it: an optional `choices` array. -/
structure ProxyResponseData where
  choices : Option (List Choice)
deriving DecidableEq

/-- Embedding of `data.choices?.[0]?.message?.content || 'No response received.'`:
optional chaining yields the first choice's message content when every
step is present; `||` replaces an absent or empty string by the literal
fallback. -/
def extractAssistantContent (data : ProxyResponseData) : String :=
  let firstContent : Option String :=
    match data.choices with
    | some (choice :: _) =>
        match choice.message with
        | some m => m.content
        | none => none
    | _ => none
  match firstContent with
  | some s => if s = "" then "No response received." else s
  | none => "No response received."

/-- The observable outcome of the `fetch('/api/chat')` call awaited in
`sendMessage`: a 2xx response with parsed body, a non-2xx response with
its status and the optional `error` field of its JSON body (`{}` when
that body fails to parse), or a transport-level failure with the thrown
error's message. -/
inductive FetchResult where
  | ok (data : ProxyResponseData)
  | httpError (status : Nat) (errorField : Option String)
  | transportError (message : String)
deriving DecidableEq

/-- Whether the cycle fails: non-2xx status or transport error. -/
def FetchResult.isFailure : FetchResult → Bool
  | FetchResult.ok _ => false
  | FetchResult.httpError _ _ => true
  | FetchResult.transportError _ => true

/-- Embedding of `error.message` in the catch block of `sendMessage`: for a non-2xx
response, `errorData.error || Request failed with status ...` (the `||`
takes the fallback when the `error` field is absent or empty); for a
transport error, the thrown message. -/
def failureMessage : FetchResult → String
  | FetchResult.ok _ => ""
  | FetchResult.httpError status errorField =>
      match errorField with
      | some e =>
          if e = "" then "Request failed with status " ++ toString status
          else e
      | none => "Request failed with status " ++ toString status
  | FetchResult.transportError message => message

/-- Embedding of `removeTypingIndicator()` on the messages area: removes the first
element with id `typingIndicator`, if any. -/
def removeTyping : List Rendered → List Rendered
  | [] => []
  | r :: rest => if r = Rendered.typing then rest else r :: removeTyping rest

/-- Embedding of `removeTypingIndicator()`. -/
def removeTypingIndicator (s : ClientState) : ClientState :=
  { s with messagesArea := removeTyping s.messagesArea }

/-- Embedding of `showTypingIndicator()`: appends the indicator to the messages
area. -/
def showTypingIndicator (s : ClientState) : ClientState :=
  { s with messagesArea := s.messagesArea ++ [Rendered.typing] }

/-- Embedding of `removeWelcomeMessage()`. -/
def removeWelcomeMessage (s : ClientState) : ClientState :=
  { s with welcomePresent := false }

/-- The `content` array `sendMessage` builds: a text part when `text` is
truthy (non-empty), then an image part when `image` is present. -/
def messageContent (text : String) (image : Option PendingImage) :
    List ContentPart :=
  (if text = "" then [] else [ContentPart.text text]) ++
    (match image with
     | some img => [ContentPart.image_url img.base64]
     | none => [])

/-- The `user` history entry `sendMessage` pushes. -/
def userEntry (text : String) (image : Option PendingImage) : Message :=
  { role := "user", content := messageContent text image }

/-- The `assistant` history entry `sendMessage` pushes on success. -/
def assistantEntry (assistantContent : String) : Message :=
  { role := "assistant", content := [ContentPart.text assistantContent] }

/-- The rendered user message
`createMessageElement('user', text, image ? image.base64 : null)`. -/
def userBubble (text : String) (image : Option PendingImage) : Rendered :=
  Rendered.userMsg text (image.map fun img => img.base64)

/-- The synchronous prefix of `sendMessage(text, image)` once past the
`isLoading` guard, up to (not including) the `fetch` call: remove the
welcome message, render the user message, push the `user` history entry,
clear the input and the image, set the loading state, show the typing
indicator. -/
def sendMessagePre (text : String) (image : Option PendingImage)
    (s : ClientState) : ClientState :=
  let s := removeWelcomeMessage s
  let s := { s with messagesArea := s.messagesArea ++ [userBubble text image] }
  let s := { s with messageHistory := s.messageHistory ++ [userEntry text image] }
  let s := { s with inputValue := "" }
  let s := removeImage s
  let s := { s with isLoading := true, sendBtnDisabled := true }
  showTypingIndicator s

/-- The `fetch('/api/chat', ...)` call being issued. -/
def issueFetch (s : ClientState) : ClientState :=
  { s with requestsSent := s.requestsSent + 1 }

/-- The continuation of `sendMessage` once the awaited call resolves:
the rest of the `try` block on a 2xx response; the `catch` block on a
non-2xx response (which the `try` block turns into a throw after calling
`removeTypingIndicator`) or on a transport error (typing indicator still
present, removed in the `catch`); then the `finally` block. -/
def sendMessageResolve (result : FetchResult) (s : ClientState) :
    ClientState :=
  let s :=
    match result with
    | FetchResult.ok data =>
        let s := removeTypingIndicator s
        let assistantContent := extractAssistantContent data
        let s := { s with messageHistory := s.messageHistory ++ [assistantEntry assistantContent] }
        { s with messagesArea := s.messagesArea ++ [Rendered.assistantMsg assistantContent] }
    | FetchResult.httpError _ _ =>
        let s := removeTypingIndicator s
        let s := removeTypingIndicator s
        showErrorMessage ("Failed to send message: " ++ failureMessage result) s
    | FetchResult.transportError _ =>
        let s := removeTypingIndicator s
        showErrorMessage ("Failed to send message: " ++ failureMessage result) s
  { s with isLoading := false, sendBtnDisabled := false }

/-- Embedding of `sendMessage(text, image)` with the outcome of its awaited network
call passed explicitly: drops the attempt when `isLoading`, otherwise
runs the synchronous prefix, issues the fetch, and resolves it. -/
def sendMessage (text : String) (image : Option PendingImage)
    (result : FetchResult) (s : ClientState) : ClientState :=
  if s.isLoading then s
  else sendMessageResolve result (issueFetch (sendMessagePre text image s))

/-- Embedding of `handleSubmit()`: trims the input; a no-op when both the trimmed
text and `currentImage` are empty; otherwise delegates to
`sendMessage`. -/
def handleSubmit (result : FetchResult) (s : ClientState) : ClientState :=
  let text := jsTrim s.inputValue
  if text = "" ∧ s.currentImage = none then s
  else sendMessage text s.currentImage result s

/-- Embedding of `clearChat()`: clears the history, clears the messages area,
re-adds the welcome message, clears any attached image, clears the
input. -/
def clearChat (s : ClientState) : ClientState :=
  let s := { s with messageHistory := [] }
  let s := { s with messagesArea := [] }
  let s := { s with welcomePresent := true }
  let s := removeImage s
  { s with inputValue := "" }

/-- Removing the typing indicator from an area that does not contain it
changes nothing. -/
theorem removeTyping_of_not_mem (l : List Rendered)
    (h : Rendered.typing ∉ l) : removeTyping l = l := by
  induction l with
  | nil => rfl
  | cons r rest ih =>
      have h1 : r ≠ Rendered.typing := by
        intro e; exact h (e ▸ List.mem_cons_self r rest)
      have h2 : Rendered.typing ∉ rest := fun hm => h (List.mem_cons_of_mem r hm)
      simp [removeTyping, h1, ih h2]

/-- Removing the typing indicator removes exactly the first occurrence. -/
theorem removeTyping_append_typing (a b : List Rendered)
    (h : Rendered.typing ∉ a) :
    removeTyping (a ++ Rendered.typing :: b) = a ++ b := by
  induction a with
  | nil => simp [removeTyping]
  | cons r rest ih =>
      have h1 : r ≠ Rendered.typing := by
        intro e; exact h (e ▸ List.mem_cons_self r rest)
      have h2 : Rendered.typing ∉ rest := fun hm => h (List.mem_cons_of_mem r hm)
      simp [removeTyping, h1, ih h2]

/-- C2: when the trimmed input text is empty and no image is attached,
`handleSubmit` is a no-op: the state is unchanged, so no history entry is
appended and no network request is issued. -/
theorem handleSubmit_noop_on_empty_input (result : FetchResult)
    (s : ClientState) (htext : jsTrim s.inputValue = "")
    (himg : s.currentImage = none) :
    handleSubmit result s = s ∧
    (handleSubmit result s).messageHistory = s.messageHistory ∧
    (handleSubmit result s).requestsSent = s.requestsSent := by
  simp [handleSubmit, htext, himg]

/-- Witness for C2 at a whitespace-only input state (a single
ideographic space U+3000, which `trim` strips) with a concrete fetch
outcome. -/
theorem handleSubmit_noop_on_empty_input_witness :
    jsTrim ({ initialState with inputValue := "\u3000" } : ClientState).inputValue = "" ∧
    ({ initialState with inputValue := "\u3000" } : ClientState).currentImage = none ∧
    handleSubmit (FetchResult.transportError "network down")
        { initialState with inputValue := "\u3000" } =
      { initialState with inputValue := "\u3000" } := by
  refine ⟨by decide, rfl, ?_⟩
  exact (handleSubmit_noop_on_empty_input
    (FetchResult.transportError "network down")
    { initialState with inputValue := "\u3000" } (by decide) rfl).1

/-- C3: while `isLoading` is true, a submit attempt is dropped: the state
is unchanged (nothing appended, nothing queued) and no further request is
issued, whether entered through `handleSubmit` or `sendMessage`. -/
theorem submit_dropped_while_loading (result : FetchResult)
    (s : ClientState) (h : s.isLoading = true) :
    handleSubmit result s = s ∧
    (∀ text image, sendMessage text image result s = s) ∧
    (handleSubmit result s).messageHistory = s.messageHistory ∧
    (handleSubmit result s).requestsSent = s.requestsSent := by
  have hsend : ∀ text image, sendMessage text image result s = s := by
    intro text image
    simp [sendMessage, h]
  have hsub : handleSubmit result s = s := by
    by_cases hc : jsTrim s.inputValue = "" ∧ s.currentImage = none
    · simp [handleSubmit, hc]
    · simp [handleSubmit, hc, hsend]
  exact ⟨hsub, hsend, by rw [hsub], by rw [hsub]⟩

/-- Witness for C3 at a loading state with a concrete fetch outcome. -/
theorem submit_dropped_while_loading_witness :
    ({ initialState with isLoading := true } : ClientState).isLoading = true ∧
    handleSubmit (FetchResult.ok ({ choices := none }))
        { initialState with isLoading := true } =
      { initialState with isLoading := true } := by
  refine ⟨rfl, ?_⟩
  exact (submit_dropped_while_loading (FetchResult.ok ({ choices := none }))
    { initialState with isLoading := true } rfl).1

/-- C4: `handleImageFile` rejects a non-`image/` MIME type with the
invalid-file-type error, otherwise rejects a file over `10 * 1024 * 1024`
bytes with the file-too-large error, in both cases leaving the pending
image untouched; an accepted and successfully decoded file overwrites the
pending image with exactly the decoded data. -/
theorem attachImage_validates_type_then_size (file : JsFile)
    (readResult : FileReadResult) (s : ClientState) :
    (jsStartsWith file.type "image/" = false →
      handleImageFile file readResult s =
        showErrorMessage "Please select a valid image file." s ∧
      (handleImageFile file readResult s).currentImage = s.currentImage) ∧
    (jsStartsWith file.type "image/" = true → maxSize < file.size →
      handleImageFile file readResult s =
        showErrorMessage "Image size must be less than 10MB." s ∧
      (handleImageFile file readResult s).currentImage = s.currentImage) ∧
    (∀ base64Data, jsStartsWith file.type "image/" = true →
      file.size ≤ maxSize →
      (handleImageFile file (FileReadResult.ok base64Data) s).currentImage =
        some ({ base64 := base64Data, mimeType := file.type }) ∧
      handleImageFile file (FileReadResult.ok base64Data) s =
        showImagePreview base64Data
          { s with currentImage := some ({ base64 := base64Data, mimeType := file.type }) }) := by
  refine ⟨?_, ?_, ?_⟩
  · intro hty
    simp [handleImageFile, hty, showErrorMessage]
  · intro hty hsize
    have hns : file.size > maxSize := hsize
    simp [handleImageFile, hty, hns, showErrorMessage]
  · intro base64Data hty hsize
    have hns : ¬ file.size > maxSize := by omega
    simp [handleImageFile, hty, hns, showImagePreview]

/-- C7: `clearChat` always yields an empty conversation history, no
pending image, a cleared input and preview, and the restored welcome
placeholder; being a total function of the prior state, it never fails
and asks no confirmation. -/
theorem resetConversation_clears_everything (s : ClientState) :
    (clearChat s).messageHistory = [] ∧
    (clearChat s).currentImage = none ∧
    (clearChat s).inputValue = "" ∧
    (clearChat s).welcomePresent = true ∧
    (clearChat s).messagesArea = [] ∧
    (clearChat s).previewSrc = "" ∧
    (clearChat s).previewVisible = false ∧
    (clearChat s).fileInputValue = "" := by
  simp [clearChat, removeImage]

/-- C9: a dropped file whose MIME type does not begin with `image/` is
silently ignored: `handleDrop` only hides the drop zone, rendering no
error bubble and changing no other state, whereas the file-picker path
(`handleImageFile`) renders an inline error for the same file. -/
theorem drop_ignores_non_image_silently (file : JsFile)
    (rest : List JsFile) (readResult : FileReadResult) (s : ClientState)
    (h : jsStartsWith file.type "image/" = false) :
    handleDrop (file :: rest) readResult s = hideDropZone s ∧
    (handleDrop (file :: rest) readResult s).messagesArea = s.messagesArea ∧
    (handleDrop (file :: rest) readResult s).currentImage = s.currentImage ∧
    handleImageFile file readResult s =
      showErrorMessage "Please select a valid image file." s := by
  refine ⟨?_, ?_, ?_, ?_⟩
  · simp [handleDrop, h]
  · simp [handleDrop, h, hideDropZone]
  · simp [handleDrop, h, hideDropZone]
  · simp [handleImageFile, h, showErrorMessage]

/-- Witness for C9 with a concrete text file dropped on the initial
state. -/
theorem drop_ignores_non_image_silently_witness :
    jsStartsWith (JsFile.mk "text/plain" 123).type "image/" = false ∧
    handleDrop [JsFile.mk "text/plain" 123] FileReadResult.error
        initialState =
      hideDropZone initialState := by
  refine ⟨by decide, ?_⟩
  exact (drop_ignores_non_image_silently (JsFile.mk "text/plain" 123) []
    FileReadResult.error initialState (by decide)).1

/-- C10: when an accepted file's asynchronous decode fails, the reader's
error handler only renders an error bubble: the previously attached
pending image and the preview are left exactly as they were. -/
theorem read_error_preserves_pending_image (file : JsFile)
    (s : ClientState) (hty : jsStartsWith file.type "image/" = true)
    (hsize : file.size ≤ maxSize) :
    (handleImageFile file FileReadResult.error s).currentImage =
      s.currentImage ∧
    handleImageFile file FileReadResult.error s =
      showErrorMessage "Failed to read image file." s ∧
    (handleImageFile file FileReadResult.error s).previewSrc =
      s.previewSrc ∧
    (handleImageFile file FileReadResult.error s).previewVisible =
      s.previewVisible := by
  have hns : ¬ file.size > maxSize := by omega
  refine ⟨?_, ?_, ?_, ?_⟩ <;>
    simp [handleImageFile, hty, hns, showErrorMessage]

/-- Witness for C10: a failing decode on a state that already holds an
attachment leaves that attachment in place. -/
theorem read_error_preserves_pending_image_witness :
    jsStartsWith (JsFile.mk "image/png" 5).type "image/" = true ∧
    (JsFile.mk "image/png" 5).size ≤ maxSize ∧
    (handleImageFile (JsFile.mk "image/png" 5) FileReadResult.error
        { initialState with currentImage := some ({ base64 := "data:old", mimeType := "image/jpeg" }) }).currentImage =
      some ({ base64 := "data:old", mimeType := "image/jpeg" }) := by
  refine ⟨by decide, by decide, ?_⟩
  exact (read_error_preserves_pending_image (JsFile.mk "image/png" 5)
    { initialState with currentImage := some ({ base64 := "data:old", mimeType := "image/jpeg" }) }
    (by decide) (by decide)).1

/-- The messages area after the synchronous prefix of a send cycle:
the user message is rendered and the typing indicator follows it. -/
theorem sendMessagePre_messagesArea (text : String)
    (image : Option PendingImage) (s : ClientState) :
    (issueFetch (sendMessagePre text image s)).messagesArea =
      (s.messagesArea ++ [userBubble text image]) ++
        Rendered.typing :: [] := by
  simp [sendMessagePre, issueFetch, removeWelcomeMessage, removeImage,
    showTypingIndicator]

/-- C1: with the loading guard passed, the synchronous prefix of
`sendMessage` (everything before the `fetch`) appends exactly one `user`
entry and issues no request yet; the completed cycle appends exactly one
`assistant` entry on a 2xx outcome and none on any failure, and issues
exactly one request either way. -/
theorem send_cycle_appends_user_then_assistant_iff_success (text : String)
    (image : Option PendingImage) (s : ClientState)
    (h : s.isLoading = false) :
    (sendMessagePre text image s).messageHistory =
      s.messageHistory ++ [userEntry text image] ∧
    (sendMessagePre text image s).requestsSent = s.requestsSent ∧
    (∀ data, (sendMessage text image (FetchResult.ok data) s).messageHistory =
      s.messageHistory ++
        [userEntry text image, assistantEntry (extractAssistantContent data)]) ∧
    (∀ result, FetchResult.isFailure result = true →
      (sendMessage text image result s).messageHistory =
        s.messageHistory ++ [userEntry text image]) ∧
    (∀ result, (sendMessage text image result s).requestsSent =
      s.requestsSent + 1) := by
  refine ⟨?_, ?_, ?_, ?_, ?_⟩
  · simp [sendMessagePre, removeWelcomeMessage, removeImage,
      showTypingIndicator]
  · simp [sendMessagePre, removeWelcomeMessage, removeImage,
      showTypingIndicator]
  · intro data
    simp [sendMessage, h, sendMessagePre, issueFetch, sendMessageResolve,
      removeWelcomeMessage, removeImage, showTypingIndicator,
      removeTypingIndicator, showErrorMessage]
  · intro result hres
    cases result with
    | ok data => simp [FetchResult.isFailure] at hres
    | httpError status errorField =>
        simp [sendMessage, h, sendMessagePre, issueFetch, sendMessageResolve,
          removeWelcomeMessage, removeImage, showTypingIndicator,
          removeTypingIndicator, showErrorMessage]
    | transportError message =>
        simp [sendMessage, h, sendMessagePre, issueFetch, sendMessageResolve,
          removeWelcomeMessage, removeImage, showTypingIndicator,
          removeTypingIndicator, showErrorMessage]
  · intro result
    cases result <;>
      simp [sendMessage, h, sendMessagePre, issueFetch, sendMessageResolve,
        removeWelcomeMessage, removeImage, showTypingIndicator,
        removeTypingIndicator, showErrorMessage]

/-- Witness for C1: a concrete successful cycle from the initial state
appends the user entry and then the assistant entry. -/
theorem send_cycle_appends_user_then_assistant_iff_success_witness :
    initialState.isLoading = false ∧
    (sendMessage "button is broken" none
        (FetchResult.ok ({ choices := some [{ message := some { content := some "Summary: report" } }] }))
        initialState).messageHistory =
      [userEntry "button is broken" none,
        assistantEntry (extractAssistantContent
          ({ choices := some [{ message := some { content := some "Summary: report" } }] }))] := by
  refine ⟨rfl, ?_⟩
  have h := send_cycle_appends_user_then_assistant_iff_success
    "button is broken" none initialState rfl
  simpa using h.2.2.1
    ({ choices := some [{ message := some { content := some "Summary: report" } }] })

/-- C6: on any failing cycle (non-2xx status or transport error) the
client renders exactly one error bubble carrying the failure reason —
the response's `error` field when it is a non-empty string — and appends
no assistant entry; and on every outcome, success or failure, the typing
indicator is gone and `isLoading` is reset to false by the finally
block. -/
theorem failure_renders_error_bubble_and_always_cleans_up (text : String)
    (image : Option PendingImage) (result : FetchResult) (s : ClientState)
    (h : s.isLoading = false) (ht : Rendered.typing ∉ s.messagesArea) :
    (FetchResult.isFailure result = true →
      (sendMessage text image result s).messagesArea =
        s.messagesArea ++ [userBubble text image,
          Rendered.errorMsg ("Failed to send message: " ++ failureMessage result)] ∧
      (sendMessage text image result s).messageHistory =
        s.messageHistory ++ [userEntry text image]) ∧
    (sendMessage text image result s).isLoading = false ∧
    Rendered.typing ∉ (sendMessage text image result s).messagesArea ∧
    (∀ status e, e ≠ "" →
      failureMessage (FetchResult.httpError status (some e)) = e) := by
  have hub : Rendered.typing ∉ s.messagesArea ++ [userBubble text image] := by
    simp [userBubble]
    exact ht
  have harea := sendMessagePre_messagesArea text image s
  have hs : ∀ r, sendMessage text image r s =
      sendMessageResolve r (issueFetch (sendMessagePre text image s)) := by
    intro r
    simp [sendMessage, h]
  have hrm : removeTyping ((issueFetch (sendMessagePre text image s)).messagesArea) =
      s.messagesArea ++ [userBubble text image] := by
    rw [harea]
    simpa using removeTyping_append_typing (s.messagesArea ++ [userBubble text image]) [] hub
  have hrm2 : removeTyping (s.messagesArea ++ [userBubble text image]) =
      s.messagesArea ++ [userBubble text image] :=
    removeTyping_of_not_mem _ hub
  refine ⟨?_, ?_, ?_, ?_⟩
  · intro hres
    cases result with
    | ok data => simp [FetchResult.isFailure] at hres
    | httpError status errorField =>
        constructor
        · rw [hs]
          simp only [sendMessageResolve, removeTypingIndicator, showErrorMessage]
          rw [hrm, hrm2]
          simp
        · simp [sendMessage, h, sendMessagePre, issueFetch, sendMessageResolve,
            removeWelcomeMessage, removeImage, showTypingIndicator,
            removeTypingIndicator, showErrorMessage]
    | transportError message =>
        constructor
        · rw [hs]
          simp only [sendMessageResolve, removeTypingIndicator, showErrorMessage]
          rw [hrm]
          simp
        · simp [sendMessage, h, sendMessagePre, issueFetch, sendMessageResolve,
            removeWelcomeMessage, removeImage, showTypingIndicator,
            removeTypingIndicator, showErrorMessage]
  · cases result <;>
      simp [sendMessage, h, sendMessagePre, issueFetch, sendMessageResolve,
        removeWelcomeMessage, removeImage, showTypingIndicator,
        removeTypingIndicator, showErrorMessage]
  · cases result with
    | ok data =>
        rw [hs]
        simp only [sendMessageResolve, removeTypingIndicator, showErrorMessage]
        rw [hrm]
        simp [userBubble]
        exact ht
    | httpError status errorField =>
        rw [hs]
        simp only [sendMessageResolve, removeTypingIndicator, showErrorMessage]
        rw [hrm, hrm2]
        simp [userBubble]
        exact ht
    | transportError message =>
        rw [hs]
        simp only [sendMessageResolve, removeTypingIndicator, showErrorMessage]
        rw [hrm]
        simp [userBubble]
        exact ht
  · intro status e he
    simp [failureMessage, he]

/-- Witness for C6: the spec's scenario — HTTP 500 with
`{"error":"rate limited"}` — renders an error bubble carrying
`rate limited` after the optimistic user message. -/
theorem failure_renders_error_bubble_and_always_cleans_up_witness :
    initialState.isLoading = false ∧
    Rendered.typing ∉ initialState.messagesArea ∧
    FetchResult.isFailure (FetchResult.httpError 500 (some "rate limited")) = true ∧
    (sendMessage "x" none (FetchResult.httpError 500 (some "rate limited"))
        initialState).messagesArea =
      [userBubble "x" none,
        Rendered.errorMsg "Failed to send message: rate limited"] := by
  refine ⟨rfl, by simp [initialState], rfl, ?_⟩
  have h := failure_renders_error_bubble_and_always_cleans_up "x" none
    (FetchResult.httpError 500 (some "rate limited")) initialState rfl
    (by simp [initialState])
  have h2 := (h.1 rfl).1
  simpa [initialState, failureMessage] using h2

/-- C8: on a 2xx proxy response the client appends exactly one
`assistant` entry carrying the extracted text and renders it; the
extraction takes the first choice's message content and falls back to
the literal `No response received.` whenever any link of
`choices?.[0]?.message?.content` is absent or the content is empty,
without reporting an error. -/
theorem success_appends_extracted_assistant_entry (text : String)
    (image : Option PendingImage) (data : ProxyResponseData)
    (s : ClientState) (h : s.isLoading = false)
    (ht : Rendered.typing ∉ s.messagesArea) :
    (sendMessage text image (FetchResult.ok data) s).messageHistory =
      s.messageHistory ++
        [userEntry text image, assistantEntry (extractAssistantContent data)] ∧
    (sendMessage text image (FetchResult.ok data) s).messagesArea =
      s.messagesArea ++
        [userBubble text image,
          Rendered.assistantMsg (extractAssistantContent data)] ∧
    extractAssistantContent ({ choices := none }) = "No response received." ∧
    extractAssistantContent ({ choices := some [] }) = "No response received." ∧
    (∀ rest, extractAssistantContent ({ choices := some ({ message := none } :: rest) }) =
      "No response received.") ∧
    (∀ rest, extractAssistantContent
        ({ choices := some ({ message := some { content := none } } :: rest) }) =
      "No response received.") ∧
    (∀ rest, extractAssistantContent
        ({ choices := some ({ message := some { content := some "" } } :: rest) }) =
      "No response received.") ∧
    (∀ c rest, c ≠ "" → extractAssistantContent
        ({ choices := some ({ message := some { content := some c } } :: rest) }) = c) := by
  have hub : Rendered.typing ∉ s.messagesArea ++ [userBubble text image] := by
    simp [userBubble]
    exact ht
  have hs : sendMessage text image (FetchResult.ok data) s =
      sendMessageResolve (FetchResult.ok data)
        (issueFetch (sendMessagePre text image s)) := by
    simp [sendMessage, h]
  have hrm : removeTyping ((issueFetch (sendMessagePre text image s)).messagesArea) =
      s.messagesArea ++ [userBubble text image] := by
    rw [sendMessagePre_messagesArea]
    simpa using removeTyping_append_typing
      (s.messagesArea ++ [userBubble text image]) [] hub
  refine ⟨?_, ?_, rfl, rfl, fun rest => rfl, fun rest => rfl, ?_, ?_⟩
  · simp [sendMessage, h, sendMessagePre, issueFetch, sendMessageResolve,
      removeWelcomeMessage, removeImage, showTypingIndicator,
      removeTypingIndicator]
  · rw [hs]
    simp only [sendMessageResolve, removeTypingIndicator]
    rw [hrm]
    simp
  · intro rest
    simp [extractAssistantContent]
  · intro c rest hc
    simp [extractAssistantContent, hc]

/-- Witness for C8: the spec's scenario — a 2xx body whose first choice
carries `Summary: ...` — appends and renders that assistant text. -/
theorem success_appends_extracted_assistant_entry_witness :
    initialState.isLoading = false ∧
    Rendered.typing ∉ initialState.messagesArea ∧
    (sendMessage "button is broken" none
        (FetchResult.ok ({ choices := some [{ message := some { content := some "Summary: ..." } }] }))
        initialState).messagesArea =
      [userBubble "button is broken" none,
        Rendered.assistantMsg (extractAssistantContent
          ({ choices := some [{ message := some { content := some "Summary: ..." } }] }))] := by
  refine ⟨rfl, by simp [initialState], ?_⟩
  have h := success_appends_extracted_assistant_entry "button is broken" none
    ({ choices := some [{ message := some { content := some "Summary: ..." } }] })
    initialState rfl (by simp [initialState])
  simpa [initialState] using h.2.1

/-- Whether a character list begins with `sc` (the two characters that
follow the `<` of an injected `<script` tag). -/
def startsSc : List Char → Bool
  | [] => false
  | [_] => false
  | a :: b :: _ => a == 's' && b == 'c'

/-- Whether a character list contains `<sc` anywhere: the three-character
prefix every occurrence of `<script` starts with. -/
def hasLtSc : List Char → Bool
  | [] => false
  | c :: rest => (c == '<' && startsSc rest) || hasLtSc rest

/-- Whether `pat` occurs as a contiguous substring of a character list. -/
def hasSubstr (pat : List Char) : List Char → Bool
  | [] => listPrefixOf pat []
  | c :: rest => listPrefixOf pat (c :: rest) || hasSubstr pat rest

/-- A cons cell that is not `<` cannot start an `<sc` occurrence. -/
theorem hasLtSc_cons_ne (c : Char) (l : List Char) (h : c ≠ '<') :
    hasLtSc (c :: l) = hasLtSc l := by
  have hc : (c == '<') = false := beq_eq_false_iff_ne.mpr h
  simp [hasLtSc, hc]

/-- Prepending characters free of `<` cannot create an `<sc`
occurrence. -/
theorem hasLtSc_append_no_lt (a l : List Char)
    (h : ∀ c ∈ a, c ≠ '<') : hasLtSc (a ++ l) = hasLtSc l := by
  induction a with
  | nil => simp
  | cons c rest ih =>
      have h1 : c ≠ '<' := h c (List.mem_cons_self c rest)
      have h2 : ∀ x ∈ rest, x ≠ '<' := fun x hx => h x (List.mem_cons_of_mem c hx)
      rw [List.cons_append, hasLtSc_cons_ne c _ h1, ih h2]

/-- Prepending the `<strong>` tag cannot create an `<sc` occurrence. -/
theorem hasLtSc_strongOpen (l : List Char) :
    hasLtSc (strongOpen ++ l) = hasLtSc l := rfl

/-- Prepending the `</strong>` tag cannot create an `<sc` occurrence. -/
theorem hasLtSc_strongClose (l : List Char) :
    hasLtSc (strongClose ++ l) = hasLtSc l := rfl

/-- Prepending the `<br>` tag cannot create an `<sc` occurrence. -/
theorem hasLtSc_br (l : List Char) :
    hasLtSc ("<br>".data ++ l) = hasLtSc l := rfl

/-- Every character of the content `findClose` captures comes from the
accumulator or the scanned characters. -/
theorem findClose_content_mem (cs : List Char) :
    ∀ acc content rest2 c, findClose cs acc = some (content, rest2) →
      c ∈ content → c ∈ acc ∨ c ∈ cs := by
  induction cs with
  | nil => intro acc content rest2 c h _; simp [findClose] at h
  | cons c1 tl ih =>
      intro acc content rest2 c h hm
      cases tl with
      | nil => simp [findClose] at h
      | cons c2 rest =>
          rw [findClose] at h
          by_cases h12 : c1 = '*' ∧ c2 = '*'
          · rw [if_pos h12] at h
            simp only [Option.some.injEq, Prod.mk.injEq] at h
            rw [← h.1] at hm
            left
            exact List.mem_reverse.mp hm
          · rw [if_neg h12] at h
            by_cases hlt : isLineTerminator c1
            · simp [hlt] at h
            · simp only [hlt, Bool.false_eq_true, if_false] at h
              rcases ih (c1 :: acc) content rest2 c h hm with hin | hin
              · rcases List.mem_cons.mp hin with heq | hin2
                · right; rw [heq]; exact List.mem_cons_self _ _
                · left; exact hin2
              · right; exact List.mem_cons_of_mem _ hin

/-- Every character of the remainder `findClose` returns comes from the
scanned characters. -/
theorem findClose_rest_mem (cs : List Char) :
    ∀ acc content rest2 c, findClose cs acc = some (content, rest2) →
      c ∈ rest2 → c ∈ cs := by
  induction cs with
  | nil => intro acc content rest2 c h _; simp [findClose] at h
  | cons c1 tl ih =>
      intro acc content rest2 c h hm
      cases tl with
      | nil => simp [findClose] at h
      | cons c2 rest =>
          rw [findClose] at h
          by_cases h12 : c1 = '*' ∧ c2 = '*'
          · rw [if_pos h12] at h
            simp only [Option.some.injEq, Prod.mk.injEq] at h
            rw [← h.2] at hm
            exact List.mem_cons_of_mem _ (List.mem_cons_of_mem _ hm)
          · rw [if_neg h12] at h
            by_cases hlt : isLineTerminator c1
            · simp [hlt] at h
            · simp only [hlt, Bool.false_eq_true, if_false] at h
              exact List.mem_cons_of_mem _ (ih (c1 :: acc) content rest2 c h hm)

/-- Equation of `boldReplace` when a bold span opens and closes. -/
theorem boldReplace_open_some (c1 c2 : Char) (rest content rest2 : List Char)
    (h12 : c1 = '*' ∧ c2 = '*')
    (hfc : findClose rest [] = some (content, rest2)) :
    boldReplace (c1 :: c2 :: rest) =
      strongOpen ++ content ++ strongClose ++ boldReplace rest2 := by
  rw [boldReplace, if_pos h12]
  split
  next content2 rest22 heq =>
    rw [hfc] at heq
    simp only [Option.some.injEq, Prod.mk.injEq] at heq
    rw [heq.1, heq.2]
  next heq =>
    rw [hfc] at heq
    exact absurd heq (by simp)

/-- Equation of `boldReplace` when `**` opens but never closes. -/
theorem boldReplace_open_none (c1 c2 : Char) (rest : List Char)
    (h12 : c1 = '*' ∧ c2 = '*') (hfc : findClose rest [] = none) :
    boldReplace (c1 :: c2 :: rest) = c1 :: c2 :: boldReplace rest := by
  rw [boldReplace, if_pos h12]
  split
  next content2 rest22 heq =>
    rw [hfc] at heq
    exact absurd heq (by simp)
  next heq => rfl

/-- Equation of `boldReplace` when no bold span opens here. -/
theorem boldReplace_no_open (c1 c2 : Char) (rest : List Char)
    (h12 : ¬ (c1 = '*' ∧ c2 = '*')) :
    boldReplace (c1 :: c2 :: rest) = c1 :: boldReplace (c2 :: rest) := by
  rw [boldReplace, if_neg h12]

/-- The rewriting `boldReplace` on input free of `<` produces no `<sc` occurrence:
the only `<` characters of its output open its own `<strong>`,
`</strong>` tags, which continue with `st` and `/s`. -/
theorem boldReplace_hasLtSc_aux (n : Nat) :
    ∀ l : List Char, l.length ≤ n → (∀ c ∈ l, c ≠ '<') →
      hasLtSc (boldReplace l) = false := by
  induction n with
  | zero =>
      intro l hl _
      have : l = [] := List.eq_nil_of_length_eq_zero (Nat.le_zero.mp hl)
      rw [this]
      simp [boldReplace, hasLtSc]
  | succ n ih =>
      intro l hl hnolt
      cases l with
      | nil => simp [boldReplace, hasLtSc]
      | cons c1 tl =>
          cases tl with
          | nil => simp [boldReplace, hasLtSc, startsSc]
          | cons c2 rest =>
              have hc1 : c1 ≠ '<' := hnolt c1 (by simp)
              have hc2 : c2 ≠ '<' := hnolt c2 (by simp)
              have hrest : ∀ c ∈ rest, c ≠ '<' := fun c hc =>
                hnolt c (by simp [hc])
              have hrestlen : rest.length ≤ n := by
                simp [List.length_cons] at hl
                omega
              by_cases h12 : c1 = '*' ∧ c2 = '*'
              · cases hfc : findClose rest [] with
                | none =>
                    rw [boldReplace_open_none c1 c2 rest h12 hfc,
                      hasLtSc_cons_ne c1 _ hc1, hasLtSc_cons_ne c2 _ hc2]
                    exact ih rest hrestlen hrest
                | some pair =>
                    obtain ⟨content, rest2⟩ := pair
                    have hcontent : ∀ c ∈ content, c ≠ '<' := by
                      intro c hc
                      rcases findClose_content_mem rest [] content rest2 c hfc hc with hin | hin
                      · simp at hin
                      · exact hrest c hin
                    have hrest2 : ∀ c ∈ rest2, c ≠ '<' := fun c hc =>
                      hrest c (findClose_rest_mem rest [] content rest2 c hfc hc)
                    have hlen2 : rest2.length ≤ n :=
                      le_trans (findClose_rest_length rest [] content rest2 hfc) hrestlen
                    rw [boldReplace_open_some c1 c2 rest content rest2 h12 hfc,
                      List.append_assoc, List.append_assoc, hasLtSc_strongOpen,
                      hasLtSc_append_no_lt content _ hcontent, hasLtSc_strongClose]
                    exact ih rest2 hlen2 hrest2
              · rw [boldReplace_no_open c1 c2 rest h12, hasLtSc_cons_ne c1 _ hc1]
                have : (c2 :: rest).length ≤ n := by
                  simp [List.length_cons] at hl ⊢
                  omega
                exact ih (c2 :: rest) this (fun c hc => hnolt c (List.mem_cons_of_mem _ hc))

/-- The rewriting `boldReplace` on input free of `<` produces no `<sc` occurrence. -/
theorem boldReplace_hasLtSc (l : List Char) (h : ∀ c ∈ l, c ≠ '<') :
    hasLtSc (boldReplace l) = false :=
  boldReplace_hasLtSc_aux l.length l (le_refl _) h

/-- No character of `escapeChar`'s output is a raw `<`. -/
theorem escapeChar_no_lt (c x : Char) (hx : x ∈ escapeChar c) : x ≠ '<' := by
  unfold escapeChar at hx
  by_cases h1 : c = '&'
  · rw [if_pos h1] at hx
    exact (by decide : ∀ y ∈ "&amp;".data, y ≠ '<') x hx
  · rw [if_neg h1] at hx
    by_cases h2 : c = Char.ofNat 0xA0
    · rw [if_pos h2] at hx
      exact (by decide : ∀ y ∈ "&nbsp;".data, y ≠ '<') x hx
    · rw [if_neg h2] at hx
      by_cases h3 : c = '<'
      · rw [if_pos h3] at hx
        exact (by decide : ∀ y ∈ "&lt;".data, y ≠ '<') x hx
      · rw [if_neg h3] at hx
        by_cases h4 : c = '>'
        · rw [if_pos h4] at hx
          exact (by decide : ∀ y ∈ "&gt;".data, y ≠ '<') x hx
        · rw [if_neg h4] at hx
          have : x = c := by simpa using hx
          rw [this]
          exact h3

/-- No character of `escapeList`'s output is a raw `<`: escaping leaves
no markup-significant less-than sign in the text. -/
theorem escapeList_no_lt (l : List Char) :
    ∀ x ∈ escapeList l, x ≠ '<' := by
  induction l with
  | nil => intro x hx; simp [escapeList] at hx
  | cons c rest ih =>
      intro x hx
      rw [escapeList] at hx
      rcases List.mem_append.mp hx with hx1 | hx2
      · exact escapeChar_no_lt c x hx1
      · exact ih x hx2

/-- The rewriting `brReplace` does not create a list starting with `sc`. -/
theorem startsSc_brReplace (l : List Char) (h : startsSc l = false) :
    startsSc (brReplace l) = false := by
  cases l with
  | nil => simp [brReplace, startsSc]
  | cons c rest =>
      by_cases hc : c = '\n'
      · rw [brReplace, if_pos hc]
        rfl
      · rw [brReplace, if_neg hc]
        cases rest with
        | nil => simp [brReplace, startsSc]
        | cons d rest2 =>
            have hstart : (c == 's' && d == 'c') = false := by
              simpa [startsSc] using h
            by_cases hd : d = '\n'
            · rw [brReplace, if_pos hd]
              rw [show ("<br>".data ++ brReplace rest2) =
                '<' :: 'b' :: 'r' :: '>' :: brReplace rest2 from rfl]
              rw [show startsSc (c :: '<' :: 'b' :: 'r' :: '>' :: brReplace rest2) =
                (c == 's' && false) from rfl]
              simp
            · rw [brReplace, if_neg hd]
              rw [show startsSc (c :: d :: brReplace rest2) = (c == 's' && d == 'c') from rfl]
              exact hstart

/-- The rewriting `brReplace` on input free of `<sc` stays free of `<sc`: the only
`<` it introduces opens its own `<br>` tag. -/
theorem brReplace_hasLtSc (l : List Char) (h : hasLtSc l = false) :
    hasLtSc (brReplace l) = false := by
  induction l with
  | nil => simp [brReplace, hasLtSc]
  | cons c rest ih =>
      have hsplit : ((c == '<') && startsSc rest) = false ∧ hasLtSc rest = false := by
        have := h
        rw [hasLtSc] at this
        exact Bool.or_eq_false_iff.mp this
      by_cases hc : c = '\n'
      · rw [brReplace, if_pos hc, hasLtSc_br]
        exact ih hsplit.2
      · rw [brReplace, if_neg hc]
        by_cases hlt2 : c = '<'
        · have h1 : startsSc rest = false := by
            have := hsplit.1
            rw [hlt2] at this
            simpa using this
          have h2 := startsSc_brReplace rest h1
          rw [hlt2]
          rw [hasLtSc]
          simp [h2, ih hsplit.2]
        · rw [hasLtSc_cons_ne c _ hlt2]
          exact ih hsplit.2

/-- A match of the pattern `<sc...` at the head of a list makes the list
contain `<sc`. -/
theorem listPrefixOf_ltsc (p l : List Char)
    (h : listPrefixOf ('<' :: 's' :: 'c' :: p) l = true) :
    hasLtSc l = true := by
  cases l with
  | nil => simp [listPrefixOf] at h
  | cons a l1 =>
      cases l1 with
      | nil =>
          rw [listPrefixOf] at h
          simp only [Bool.and_eq_true] at h
          obtain ⟨_, h2⟩ := h
          simp [listPrefixOf] at h2
      | cons b l2 =>
          cases l2 with
          | nil =>
              rw [listPrefixOf] at h
              simp only [Bool.and_eq_true] at h
              obtain ⟨_, h2⟩ := h
              rw [listPrefixOf] at h2
              simp only [Bool.and_eq_true] at h2
              obtain ⟨_, h3⟩ := h2
              simp [listPrefixOf] at h3
          | cons e l3 =>
              rw [listPrefixOf] at h
              simp only [Bool.and_eq_true] at h
              obtain ⟨ha, h2⟩ := h
              rw [listPrefixOf] at h2
              simp only [Bool.and_eq_true] at h2
              obtain ⟨hb, h3⟩ := h2
              rw [listPrefixOf] at h3
              simp only [Bool.and_eq_true] at h3
              obtain ⟨he, _⟩ := h3
              rw [hasLtSc]
              have h1 : (a == '<') = true := beq_iff_eq.mpr (beq_iff_eq.mp ha).symm
              have h2 : (b == 's') = true := beq_iff_eq.mpr (beq_iff_eq.mp hb).symm
              have h3 : (e == 'c') = true := beq_iff_eq.mpr (beq_iff_eq.mp he).symm
              rw [show startsSc (b :: e :: l3) = (b == 's' && e == 'c') from rfl]
              rw [h1, h2, h3]
              rfl

/-- A list containing `<sc...` anywhere contains `<sc`. -/
theorem hasSubstr_imp_hasLtSc (p l : List Char)
    (h : hasSubstr ('<' :: 's' :: 'c' :: p) l = true) : hasLtSc l = true := by
  induction l with
  | nil => simp [hasSubstr, listPrefixOf] at h
  | cons c rest ih =>
      rw [hasSubstr] at h
      rcases Bool.or_eq_true_iff.mp h with h1 | h2
      · exact listPrefixOf_ltsc p (c :: rest) h1
      · rw [hasLtSc, ih h2]
        simp

/-- C5: `formatMessageText` HTML-escapes the raw text before its
markdown-lite rewriting, so no input can smuggle a `<script` tag into the
output (the only `<` characters of the output belong to the formatter's
own `<strong>`, `</strong>` and `<br>` tags); in particular the text
`**bold** <script>` renders with the script tag escaped and the bold
markers turned into a `<strong>` element. -/
theorem formatMessageText_escapes_before_markup :
    (∀ text : String,
      hasSubstr ("<script".data) (formatMessageText text).data = false) ∧
    formatMessageText "**bold** <script>" =
      "<strong>bold</strong> &lt;script&gt;" := by
  constructor
  · intro text
    have h1 : ∀ x ∈ escapeList text.data, x ≠ '<' := escapeList_no_lt text.data
    have h2 : hasLtSc (boldReplace (escapeList text.data)) = false :=
      boldReplace_hasLtSc (escapeList text.data) h1
    have h3 : hasLtSc (brReplace (boldReplace (escapeList text.data))) = false :=
      brReplace_hasLtSc _ h2
    have e : (formatMessageText text).data =
        brReplace (boldReplace (escapeList text.data)) := by
      simp [formatMessageText, escapeHtml]
    rw [e]
    cases hq : hasSubstr ("<script".data)
        (brReplace (boldReplace (escapeList text.data))) with
    | false => rfl
    | true =>
        rw [show ("<script".data) = '<' :: 's' :: 'c' :: "ript".data from rfl] at hq
        rw [hasSubstr_imp_hasLtSc "ript".data _ hq] at h3
        exact absurd h3 (by simp)
  · simp [formatMessageText, escapeHtml, escapeList, escapeChar, boldReplace,
      findClose, brReplace, strongOpen, strongClose, isLineTerminator,
      Char.ofNat]

end BugReport
